import Mathlib

/-!
Verification of the geometry-and-rasterization core of the Graphics_Engine
repository (`Editor_window/GraphicsCore.h`), shallowly embedded in Lean 4.

Floating-point arithmetic of the C++ source is idealised by the real
numbers; `int` coordinates and step counts become `ℤ`, loop counters `ℕ`.
The `std::vector` buffers become `List`s; the unguarded `vertices[i]`
accesses are embedded as an option-valued lookup with a default fallback,
whose failure branch is proved unreachable.  The `while (true)` Bresenham
loop is embedded with explicit fuel that is proved sufficient.
-/

/-- Embedding of `struct vec3d`: three coordinates. -/
structure vec3d where
  x : ℝ
  y : ℝ
  z : ℝ

instance : Inhabited vec3d := ⟨⟨0, 0, 0⟩⟩

/-- Embedding of `vec3d::projectTo2D(centerX, centerY, scale, moveX, moveY)`:
pseudo-perspective divide with `fov = 70`, aspect correction `16/9`,
translation by screen center and offset, y axis flipped. -/
noncomputable def vec3d.projectTo2D (v : vec3d) (centerX centerY : ℤ)
    (scale moveX moveY : ℝ) : vec3d :=
  let fov : ℝ := 70
  let aspect : ℝ := 16 / 9
  let projectedX := v.x / (1 + v.z / (fov * scale)) * aspect
  let projectedY := v.y / (1 + v.z / (fov * scale)) * aspect
  ⟨centerX + projectedX + moveX, centerY - projectedY + moveY, v.z⟩

/-- Embedding of `struct triangle`: three points held by value. -/
structure triangle where
  p1 : vec3d
  p2 : vec3d
  p3 : vec3d

/-- Embedding of the raw buffer access `vertices[i]` of the C++ source.
The lookup is option-valued; the out-of-range branch answers with the
default vector (the C++ original would be undefined behaviour there, and
that branch is proved unreachable for the generated buffers). -/
def vlookup (vs : List vec3d) (i : ℕ) : vec3d := (vs[i]?).getD default

/-- One vertex of `Sphere::generateVertices`: spherical-to-Cartesian
coordinates with polar angle `θ = π·lat/latitudeSteps` and azimuth
`φ = 2π·lon/longitudeSteps`. -/
noncomputable def sphereVertex (radius : ℝ) (latitudeSteps longitudeSteps : ℤ)
    (lat lon : ℕ) : vec3d :=
  let theta : ℝ := Real.pi * lat / latitudeSteps
  let phi : ℝ := 2 * Real.pi * lon / longitudeSteps
  ⟨radius * Real.sin theta * Real.cos phi,
   radius * Real.cos theta,
   radius * Real.sin theta * Real.sin phi⟩

/-- Embedding of `Sphere::generateVertices`: the loops
`for lat = 0 .. latitudeSteps` (inclusive) and `for lon = 0 .. longitudeSteps`
(inclusive) run `(latitudeSteps+1).toNat` resp. `(longitudeSteps+1).toNat`
times, matching the `int` loops of the source also for non-positive step
counts. -/
noncomputable def generateVertices (radius : ℝ)
    (latitudeSteps longitudeSteps : ℤ) : List vec3d :=
  (List.range (latitudeSteps + 1).toNat).flatMap fun lat =>
    (List.range (longitudeSteps + 1).toNat).map fun lon =>
      sphereVertex radius latitudeSteps longitudeSteps lat lon

/-- Embedding of `Sphere::generateIndices`: for every latitude band and
longitude cell, two triangles of the quad, each holding copies of the
vertex-buffer entries `first`, `second = first + longitudeSteps + 1`,
`first + 1`, `second + 1`. -/
def generateIndices (vs : List vec3d) (latitudeSteps longitudeSteps : ℤ) :
    List triangle :=
  (List.range latitudeSteps.toNat).flatMap fun lat =>
    (List.range longitudeSteps.toNat).flatMap fun lon =>
      let first := lat * (longitudeSteps.toNat + 1) + lon
      let second := first + longitudeSteps.toNat + 1
      [⟨vlookup vs first, vlookup vs second, vlookup vs (first + 1)⟩,
       ⟨vlookup vs second, vlookup vs (second + 1), vlookup vs (first + 1)⟩]

/-- State of `class Sphere`: parameters plus vertex and triangle buffers. -/
structure Sphere where
  radius : ℝ
  latitudeSteps : ℤ
  longitudeSteps : ℤ
  vertices : List vec3d
  triangles : List triangle

/-- Embedding of the `Sphere` constructor: generate vertices, then indices. -/
noncomputable def mkSphere (radius : ℝ) (latitudeSteps longitudeSteps : ℤ) :
    Sphere :=
  let vs := generateVertices radius latitudeSteps longitudeSteps
  ⟨radius, latitudeSteps, longitudeSteps, vs,
   generateIndices vs latitudeSteps longitudeSteps⟩

/-- The per-vertex body of `Sphere::rotate`: rotation about X, then Y,
then Z, exactly as the in-place updates of the source compute it. -/
noncomputable def rotateVec (angleX angleY angleZ : ℝ) (v : vec3d) : vec3d :=
  let y1 := v.y * Real.cos angleX - v.z * Real.sin angleX
  let z1 := v.y * Real.sin angleX + v.z * Real.cos angleX
  let x2 := v.x * Real.cos angleY + z1 * Real.sin angleY
  let z2 := -v.x * Real.sin angleY + z1 * Real.cos angleY
  let x3 := x2 * Real.cos angleZ - y1 * Real.sin angleZ
  let y3 := x2 * Real.sin angleZ + y1 * Real.cos angleZ
  ⟨x3, y3, z2⟩

/-- Embedding of `Sphere::rotate`: transform every vertex of the CURRENT
buffer in place, then regenerate the triangle list. -/
noncomputable def Sphere.rotate (s : Sphere) (angleX angleY angleZ : ℝ) :
    Sphere :=
  let vs := s.vertices.map (rotateVec angleX angleY angleZ)
  { s with vertices := vs,
           triangles := generateIndices vs s.latitudeSteps s.longitudeSteps }

/-- Embedding of `Sphere::getTriangles`. -/
def Sphere.getTriangles (s : Sphere) : List triangle := s.triangles

/-- The sphere states reachable through the public interface: freshly
constructed, or obtained from a reachable state by a `rotate` call. -/
inductive Reached : Sphere → Prop where
  | init : ∀ radius latitudeSteps longitudeSteps,
      Reached (mkSphere radius latitudeSteps longitudeSteps)
  | rot : ∀ s angleX angleY angleZ,
      Reached s → Reached (s.rotate angleX angleY angleZ)

/-- Squared distance of a vector from the origin. -/
noncomputable def vec3d.normSq (v : vec3d) : ℝ := v.x ^ 2 + v.y ^ 2 + v.z ^ 2

/-- Distance of a vector from the origin. -/
noncomputable def vec3d.dist0 (v : vec3d) : ℝ := Real.sqrt v.normSq

/-- The `while (true)` loop of `RenderingEngine::DrawLine`, with explicit
fuel.  Each iteration plots the current pixel with the given colour, stops
at the endpoint, otherwise advances `x1` and/or `y1` with the Bresenham
error update.  Running out of fuel answers `none`. -/
def drawLineLoop (x2 y2 dx dy sx sy c : ℤ) :
    ℕ → ℤ → ℤ → ℤ → Option (List ((ℤ × ℤ) × ℤ))
  | 0, _, _, _ => none
  | fuel + 1, x1, y1, err =>
    if x1 = x2 ∧ y1 = y2 then some [((x1, y1), c)]
    else
      let e2 := 2 * err
      let err1 := if e2 ≥ dy then err + dy else err
      let x1' := if e2 ≥ dy then x1 + sx else x1
      let err2 := if e2 ≤ dx then err1 + dx else err1
      let y1' := if e2 ≤ dx then y1 + sy else y1
      match drawLineLoop x2 y2 dx dy sx sy c fuel x1' y1' err2 with
      | none => none
      | some rest => some (((x1, y1), c) :: rest)

/-- Embedding of `RenderingEngine::DrawLine`: Bresenham setup followed by
the loop, answering the sequence of (pixel, colour) writes.  The fuel
`dx - dy + 1` is an upper bound on the iteration count, proved sufficient
below. -/
def DrawLine (x1 y1 x2 y2 c : ℤ) : Option (List ((ℤ × ℤ) × ℤ)) :=
  let dx := |x2 - x1|
  let sx : ℤ := if x1 < x2 then 1 else -1
  let dy := -|y2 - y1|
  let sy : ℤ := if y1 < y2 then 1 else -1
  drawLineLoop x2 y2 dx dy sx sy c (dx - dy + 1).toNat x1 y1 (dx + dy)

/-- C1: `projectTo2D` on input `(x, y, z)` returns
`(centerX + (x/(1+z/(70·scale)))·(16/9) + moveX,
  centerY − (y/(1+z/(70·scale)))·(16/9) + moveY, z)`, and on the point
`(0,0,0)` with zero offsets it returns exactly `(centerX, centerY)`. -/
theorem projectTo2D_spec (v : vec3d) (centerX centerY : ℤ)
    (scale moveX moveY : ℝ) :
    v.projectTo2D centerX centerY scale moveX moveY =
      ⟨(centerX : ℝ) + v.x / (1 + v.z / (70 * scale)) * (16 / 9) + moveX,
       (centerY : ℝ) - v.y / (1 + v.z / (70 * scale)) * (16 / 9) + moveY,
       v.z⟩
    ∧ (vec3d.mk 0 0 0).projectTo2D centerX centerY scale 0 0 =
      ⟨(centerX : ℝ), (centerY : ℝ), 0⟩ := by
  constructor
  · rfl
  · simp [vec3d.projectTo2D]

/-- C7: `DrawLine` from (0,0) to (5,0) writes exactly the six pixels
(0,0) … (5,0), each with the given colour, and the degenerate call from
(2,2) to (2,2) writes exactly the one pixel (2,2). -/
theorem DrawLine_concrete (c : ℤ) :
    DrawLine 0 0 5 0 c =
      some [((0, 0), c), ((1, 0), c), ((2, 0), c),
            ((3, 0), c), ((4, 0), c), ((5, 0), c)]
    ∧ DrawLine 2 2 2 2 c = some [((2, 2), c)] :=
  ⟨rfl, rfl⟩

instance : Inhabited triangle := ⟨⟨default, default, default⟩⟩

/-- Length of a concatenation of `n` constant-length blocks. -/
theorem length_flatMap_range {α : Type} (f : ℕ → List α) (k n : ℕ)
    (hf : ∀ i, (f i).length = k) :
    ((List.range n).flatMap f).length = n * k := by
  induction n with
  | zero => simp
  | succ n ih =>
    rw [List.range_succ, List.flatMap_append, List.length_append, ih]
    simp [hf, Nat.succ_mul]

/-- Indexing into a concatenation of constant-length blocks. -/
theorem getD_flatMap_range {α : Type} (d : α) (f : ℕ → List α) (k : ℕ)
    (hf : ∀ i, (f i).length = k) (n i j : ℕ) (hi : i < n) (hj : j < k) :
    ((List.range n).flatMap f).getD (i * k + j) d = (f i).getD j d := by
  induction n with
  | zero => omega
  | succ n ih =>
    rw [List.range_succ, List.flatMap_append]
    rcases Nat.lt_or_ge i n with h | h
    · rw [List.getD_append _ _ _ _ ?_]
      · exact ih h
      · rw [length_flatMap_range f k n hf]
        calc i * k + j < i * k + k := by omega
          _ = (i + 1) * k := by ring
          _ ≤ n * k := Nat.mul_le_mul_right k (by omega)
    · have hin : i = n := by omega
      subst hin
      rw [List.getD_append_right _ _ _ _ ?_]
      · rw [length_flatMap_range f k i hf]
        simp [Nat.add_sub_cancel_left]
      · rw [length_flatMap_range f k i hf]; omega

/-- Size of the generated vertex buffer. -/
theorem generateVertices_length (r : ℝ) (L N : ℤ) :
    (generateVertices r L N).length = (L + 1).toNat * (N + 1).toNat := by
  unfold generateVertices
  exact length_flatMap_range _ _ _ fun i => by simp

/-- The vertex stored at slot `lat · stride + lon` of the buffer. -/
theorem generateVertices_getD (r : ℝ) (L N : ℤ) (lat lon : ℕ)
    (hlat : lat < (L + 1).toNat) (hlon : lon < (N + 1).toNat) :
    (generateVertices r L N).getD (lat * (N + 1).toNat + lon) default =
      sphereVertex r L N lat lon := by
  unfold generateVertices
  rw [getD_flatMap_range _ _ (N + 1).toNat (fun i => by simp) _ _ _ hlat hlon]
  rw [List.getD_eq_getElem?_getD, List.getElem?_map, List.getElem?_range hlon]
  rfl

/-- Every generated vertex lies on the sphere of the given radius. -/
theorem sphereVertex_normSq (r : ℝ) (L N : ℤ) (lat lon : ℕ) :
    (sphereVertex r L N lat lon).normSq = r ^ 2 := by
  unfold sphereVertex vec3d.normSq
  simp only
  linear_combination
    (r ^ 2 * Real.sin (Real.pi * lat / L) ^ 2) *
        Real.sin_sq_add_cos_sq (2 * Real.pi * lon / N) +
      r ^ 2 * Real.sin_sq_add_cos_sq (Real.pi * lat / L)

/-- C2: for `latitudeSteps ≥ 1` and `longitudeSteps ≥ 1` the generated
vertex buffer has exactly `(latitudeSteps+1)·(longitudeSteps+1)` entries in
latitude-major order, the vertex at `(lat, lon)` is
`(r·sinθ·cosφ, r·cosθ, r·sinθ·sinφ)` with `θ = π·lat/latitudeSteps` and
`φ = 2π·lon/longitudeSteps`, and every vertex satisfies
`|x² + y² + z² − r²| < ε` for every `ε > 0`. -/
theorem generateVertices_spec (r : ℝ) (L N : ℤ) (hL : 1 ≤ L) (hN : 1 ≤ N) :
    (generateVertices r L N).length = (L.toNat + 1) * (N.toNat + 1)
    ∧ (∀ lat lon : ℕ, lat ≤ L.toNat → lon ≤ N.toNat →
        (generateVertices r L N).getD (lat * (N.toNat + 1) + lon) default =
          vec3d.mk
            (r * Real.sin (Real.pi * lat / L) * Real.cos (2 * Real.pi * lon / N))
            (r * Real.cos (Real.pi * lat / L))
            (r * Real.sin (Real.pi * lat / L) * Real.sin (2 * Real.pi * lon / N)))
    ∧ ∀ v ∈ generateVertices r L N, ∀ ε : ℝ, 0 < ε →
        |v.x ^ 2 + v.y ^ 2 + v.z ^ 2 - r ^ 2| < ε := by
  have hL1 : (L + 1).toNat = L.toNat + 1 := by omega
  have hN1 : (N + 1).toNat = N.toNat + 1 := by omega
  refine ⟨?_, ?_, ?_⟩
  · rw [generateVertices_length, hL1, hN1]
  · intro lat lon h1 h2
    have h := generateVertices_getD r L N lat lon (by omega) (by omega)
    rw [hN1] at h
    rw [h]
    rfl
  · intro v hv ε hε
    simp only [generateVertices, List.mem_flatMap, List.mem_map] at hv
    obtain ⟨lat, -, lon, -, rfl⟩ := hv
    have h := sphereVertex_normSq r L N lat lon
    unfold vec3d.normSq at h
    rw [h]
    simpa using hε

/-- Witness for C2 at radius 1, latitudeSteps 2, longitudeSteps 3. -/
theorem generateVertices_spec_witness :
    ((1 : ℤ) ≤ 2 ∧ (1 : ℤ) ≤ 3)
    ∧ (generateVertices 1 2 3).length = ((2 : ℤ).toNat + 1) * ((3 : ℤ).toNat + 1) :=
  ⟨⟨by decide, by decide⟩, (generateVertices_spec 1 2 3 (by decide) (by decide)).1⟩

/-- Size of the generated triangle list. -/
theorem generateIndices_length (vs : List vec3d) (L N : ℤ) :
    (generateIndices vs L N).length = L.toNat * (N.toNat * 2) := by
  unfold generateIndices
  refine length_flatMap_range _ _ _ fun lat => ?_
  exact length_flatMap_range _ _ _ fun lon => rfl

/-- The two triangles emitted for the quad at `(lat, lon)`. -/
theorem generateIndices_getD (vs : List vec3d) (L N : ℤ) (lat lon j : ℕ)
    (hlat : lat < L.toNat) (hlon : lon < N.toNat) (hj : j < 2) :
    (generateIndices vs L N).getD (lat * (N.toNat * 2) + (lon * 2 + j)) default =
      ([⟨vlookup vs (lat * (N.toNat + 1) + lon),
         vlookup vs (lat * (N.toNat + 1) + lon + N.toNat + 1),
         vlookup vs (lat * (N.toNat + 1) + lon + 1)⟩,
        ⟨vlookup vs (lat * (N.toNat + 1) + lon + N.toNat + 1),
         vlookup vs (lat * (N.toNat + 1) + lon + N.toNat + 1 + 1),
         vlookup vs (lat * (N.toNat + 1) + lon + 1)⟩] : List triangle).getD j
        default := by
  unfold generateIndices
  rw [getD_flatMap_range _ _ (N.toNat * 2) ?hrow _ _ _ hlat (by omega)]
  case hrow =>
    intro lat'
    exact length_flatMap_range _ _ _ fun lon' => rfl
  rw [getD_flatMap_range _ _ 2 ?hpair _ _ _ hlon hj]
  case hpair =>
    intro lon'
    rfl

/-- C3: for `latitudeSteps ≥ 1` and `longitudeSteps ≥ 1` the generated
triangle list has exactly `2·latitudeSteps·longitudeSteps` entries, and the
quad at `(lat, lon)` contributes, at positions `2·(lat·longitudeSteps+lon)`
and the next one, the triangles `(first, second, first+1)` and
`(second, second+1, first+1)` built from copies of the vertex-buffer
entries, where `first = lat·(longitudeSteps+1)+lon` and
`second = first + longitudeSteps + 1`. -/
theorem generateIndices_spec (vs : List vec3d) (L N : ℤ) (_hL : 1 ≤ L)
    (_hN : 1 ≤ N) (lat lon : ℕ) (hlat : lat < L.toNat) (hlon : lon < N.toNat) :
    (generateIndices vs L N).length = 2 * L.toNat * N.toNat
    ∧ (generateIndices vs L N).getD (2 * (lat * N.toNat + lon)) default =
        ⟨vlookup vs (lat * (N.toNat + 1) + lon),
         vlookup vs (lat * (N.toNat + 1) + lon + (N.toNat + 1)),
         vlookup vs (lat * (N.toNat + 1) + lon + 1)⟩
    ∧ (generateIndices vs L N).getD (2 * (lat * N.toNat + lon) + 1) default =
        ⟨vlookup vs (lat * (N.toNat + 1) + lon + (N.toNat + 1)),
         vlookup vs (lat * (N.toNat + 1) + lon + (N.toNat + 1) + 1),
         vlookup vs (lat * (N.toNat + 1) + lon + 1)⟩ := by
  refine ⟨?_, ?_, ?_⟩
  · rw [generateIndices_length]; ring
  · have h := generateIndices_getD vs L N lat lon 0 hlat hlon (by omega)
    have hidx : lat * (N.toNat * 2) + (lon * 2 + 0) = 2 * (lat * N.toNat + lon) := by
      ring
    rw [hidx] at h
    rw [h]
    rfl
  · have h := generateIndices_getD vs L N lat lon 1 hlat hlon (by omega)
    have hidx : lat * (N.toNat * 2) + (lon * 2 + 1) = 2 * (lat * N.toNat + lon) + 1 := by
      ring
    rw [hidx] at h
    rw [h]
    rfl

/-- Witness for C3 at latitudeSteps 2, longitudeSteps 3, quad (1, 2). -/
theorem generateIndices_spec_witness :
    ((1 : ℤ) ≤ 2 ∧ (1 : ℤ) ≤ 3 ∧ 1 < (2 : ℤ).toNat ∧ 2 < (3 : ℤ).toNat)
    ∧ (generateIndices [] 2 3).length = 2 * (2 : ℤ).toNat * (3 : ℤ).toNat :=
  ⟨⟨by decide, by decide, by decide, by decide⟩,
   (generateIndices_spec [] 2 3 (by decide) (by decide) 1 2 (by decide)
      (by decide)).1⟩

/-- C10: every vertex-buffer slot read by `generateIndices` — `first`,
`first+1`, `second`, `second+1` with `first = lat·(longitudeSteps+1)+lon`
and `second = first+(longitudeSteps+1)` — is strictly inside the generated
buffer, so the failure branch of the embedded lookup is unreachable. -/
theorem generateIndices_inbounds (r : ℝ) (L N : ℤ) (hL : 1 ≤ L) (hN : 1 ≤ N)
    (lat lon : ℕ) (hlat : lat < L.toNat) (hlon : lon < N.toNat) :
    ((generateVertices r L N)[lat * (N.toNat + 1) + lon]?).isSome
    ∧ ((generateVertices r L N)[lat * (N.toNat + 1) + lon + 1]?).isSome
    ∧ ((generateVertices r L N)[lat * (N.toNat + 1) + lon + (N.toNat + 1)]?).isSome
    ∧ ((generateVertices r L N)[lat * (N.toNat + 1) + lon + (N.toNat + 1) + 1]?).isSome := by
  have hlen : (generateVertices r L N).length = (L.toNat + 1) * (N.toNat + 1) := by
    rw [generateVertices_length]
    congr 1 <;> omega
  have key : ∀ i : ℕ, i < (L.toNat + 1) * (N.toNat + 1) →
      ((generateVertices r L N)[i]?).isSome := by
    intro i hi
    rw [List.getElem?_eq_getElem (by rw [hlen]; exact hi)]
    rfl
  have h1 : (lat + 1) * (N.toNat + 1) ≤ L.toNat * (N.toNat + 1) :=
    Nat.mul_le_mul_right _ (by omega)
  have h2 : (lat + 1) * (N.toNat + 1) = lat * (N.toNat + 1) + N.toNat + 1 := by
    ring
  have h3 : (L.toNat + 1) * (N.toNat + 1) = L.toNat * (N.toNat + 1) + N.toNat + 1 := by
    ring
  exact ⟨key _ (by omega), key _ (by omega), key _ (by omega), key _ (by omega)⟩

/-- Witness for C10 at radius 1, latitudeSteps 2, longitudeSteps 3,
quad (1, 2). -/
theorem generateIndices_inbounds_witness :
    ((1 : ℤ) ≤ 2 ∧ (1 : ℤ) ≤ 3 ∧ 1 < (2 : ℤ).toNat ∧ 2 < (3 : ℤ).toNat)
    ∧ ((generateVertices 1 2 3)[1 * ((3 : ℤ).toNat + 1) + 2]?).isSome :=
  ⟨⟨by decide, by decide, by decide, by decide⟩,
   (generateIndices_inbounds 1 2 3 (by decide) (by decide) 1 2 (by decide)
      (by decide)).1⟩

/-- C9: constructing a `Sphere` with non-positive step counts completes and
yields an empty triangle list. -/
theorem degenerate_sphere (r : ℝ) (L N : ℤ) (h : L ≤ 0 ∨ N ≤ 0) :
    (mkSphere r L N).getTriangles = [] := by
  rcases h with h | h
  · have hL : L.toNat = 0 := by omega
    simp [mkSphere, Sphere.getTriangles, generateIndices, hL]
  · have hN : N.toNat = 0 := by omega
    simp [mkSphere, Sphere.getTriangles, generateIndices, hN]

/-- Witness for C9 at radius 1, latitudeSteps 0, longitudeSteps 5. -/
theorem degenerate_sphere_witness :
    ((0 : ℤ) ≤ 0 ∨ (5 : ℤ) ≤ 0) ∧ (mkSphere 1 0 5).getTriangles = [] :=
  ⟨by decide, degenerate_sphere 1 0 5 (by decide)⟩

/-- A single-axis rotation step preserves the sum of the two squares. -/
theorem rotate_step_sq (p q t : ℝ) :
    (p * Real.cos t - q * Real.sin t) ^ 2 +
      (p * Real.sin t + q * Real.cos t) ^ 2 = p ^ 2 + q ^ 2 := by
  linear_combination (p ^ 2 + q ^ 2) * Real.sin_sq_add_cos_sq t

/-- The X-then-Y-then-Z rotation of `Sphere::rotate` preserves the squared
distance from the origin. -/
theorem rotateVec_normSq (angleX angleY angleZ : ℝ) (v : vec3d) :
    (rotateVec angleX angleY angleZ v).normSq = v.normSq := by
  unfold rotateVec vec3d.normSq
  simp only
  linear_combination
    (((v.x * Real.cos angleY +
          (v.y * Real.sin angleX + v.z * Real.cos angleX) * Real.sin angleY) ^ 2 +
        (v.y * Real.cos angleX - v.z * Real.sin angleX) ^ 2) *
      Real.sin_sq_add_cos_sq angleZ) +
    ((v.x ^ 2 + (v.y * Real.sin angleX + v.z * Real.cos angleX) ^ 2) *
      Real.sin_sq_add_cos_sq angleY) +
    ((v.y ^ 2 + v.z ^ 2) * Real.sin_sq_add_cos_sq angleX)

/-- C5: a `rotate` call preserves every vertex's distance from the
origin: the vertex at any slot `i` after the call is as far from the origin
as the vertex at slot `i` before the call. -/
theorem rotate_preserves_dist (s : Sphere) (angleX angleY angleZ : ℝ)
    (i : ℕ) :
    ((s.rotate angleX angleY angleZ).vertices.getD i default).dist0 =
      (s.vertices.getD i default).dist0 := by
  show ((s.vertices.map (rotateVec angleX angleY angleZ)).getD i
      default).dist0 = (s.vertices.getD i default).dist0
  unfold vec3d.dist0
  congr 1
  rw [List.getD_eq_getElem?_getD, List.getD_eq_getElem?_getD,
    List.getElem?_map]
  cases h : s.vertices[i]? with
  | none => rfl
  | some v => simp [rotateVec_normSq]

/-- C4 counterexample: two successive `rotate(π/2, 0, 0)` calls do NOT
leave the buffer equal to the original buffer rotated once by the absolute
angles — the code compounds the rotation on the already-rotated buffer. -/
theorem rotate_absolute_counterexample :
    ¬ (((mkSphere 1 1 1).rotate (Real.pi / 2) 0 0).rotate
          (Real.pi / 2) 0 0).vertices =
        (mkSphere 1 1 1).vertices.map (rotateVec (Real.pi / 2) 0 0) := by
  have hrange : List.range ((2 : ℤ)).toNat = [0, 1] := rfl
  have hv : generateVertices 1 1 1 =
      [⟨0, 1, 0⟩, ⟨0, 1, 0⟩, ⟨0, -1, 0⟩, ⟨0, -1, 0⟩] := by
    norm_num [generateVertices, sphereVertex, hrange,
      Real.sin_zero, Real.cos_zero,
      Real.sin_pi, Real.cos_pi, Real.sin_two_pi, Real.cos_two_pi]
  have hf1 : rotateVec (Real.pi / 2) 0 0 ⟨0, 1, 0⟩ = ⟨0, 0, 1⟩ := by
    norm_num [rotateVec, Real.cos_pi_div_two, Real.sin_pi_div_two]
  have hf2 : rotateVec (Real.pi / 2) 0 0 ⟨0, -1, 0⟩ = ⟨0, 0, -1⟩ := by
    norm_num [rotateVec, Real.cos_pi_div_two, Real.sin_pi_div_two]
  have hf3 : rotateVec (Real.pi / 2) 0 0 ⟨0, 0, 1⟩ = ⟨0, -1, 0⟩ := by
    norm_num [rotateVec, Real.cos_pi_div_two, Real.sin_pi_div_two]
  intro h
  have hL : (((mkSphere 1 1 1).rotate (Real.pi / 2) 0 0).rotate
      (Real.pi / 2) 0 0).vertices =
      [⟨0, -1, 0⟩, ⟨0, -1, 0⟩, ⟨0, 1, 0⟩, ⟨0, 1, 0⟩] := by
    show ((generateVertices 1 1 1).map (rotateVec (Real.pi / 2) 0 0)).map
        (rotateVec (Real.pi / 2) 0 0) = _
    rw [hv]
    simp only [List.map_cons, List.map_nil, hf1, hf2, hf3]
    norm_num [rotateVec, Real.cos_pi_div_two, Real.sin_pi_div_two]
  have hR : (mkSphere 1 1 1).vertices.map (rotateVec (Real.pi / 2) 0 0) =
      [⟨0, 0, 1⟩, ⟨0, 0, 1⟩, ⟨0, 0, -1⟩, ⟨0, 0, -1⟩] := by
    show (generateVertices 1 1 1).map (rotateVec (Real.pi / 2) 0 0) = _
    rw [hv]
    simp only [List.map_cons, List.map_nil, hf1, hf2]
  rw [hL, hR] at h
  have h0 := congrArg (fun l => (l.getD 0 default).z) h
  norm_num at h0

/-- C4 (amended): each `rotate` call transforms the buffer AS IT STOOD
BEFORE THE CALL, vertex by vertex, by rotation about X then Y then Z — the
angles act as deltas relative to the previous pose, not as absolute
orientation from the original pose — and `rotate(0,0,0)` leaves the buffer
unchanged exactly. -/
theorem rotate_delta_semantics (s : Sphere) (angleX angleY angleZ : ℝ) :
    (s.rotate angleX angleY angleZ).vertices =
      s.vertices.map (rotateVec angleX angleY angleZ)
    ∧ (s.rotate 0 0 0).vertices = s.vertices := by
  refine ⟨rfl, ?_⟩
  show s.vertices.map (rotateVec 0 0 0) = s.vertices
  have h : ∀ v : vec3d, rotateVec 0 0 0 v = v := fun v => by
    cases v
    simp [rotateVec]
  have hid : rotateVec 0 0 0 = id := funext h
  rw [hid, List.map_id]

/-- C6: in every state reachable through the public interface —
construction followed by any sequence of `rotate` calls — the triangle
list returned by `getTriangles` is exactly `generateIndices` applied to
the current vertex buffer and the stored step counts. -/
theorem triangles_consistent (s : Sphere) (h : Reached s) :
    s.getTriangles =
      generateIndices s.vertices s.latitudeSteps s.longitudeSteps := by
  induction h with
  | init radius latitudeSteps longitudeSteps => rfl
  | rot s angleX angleY angleZ _ _ => rfl

/-- Witness for C6 at a freshly constructed sphere. -/
theorem triangles_consistent_witness :
    Reached (mkSphere 1 1 1)
    ∧ (mkSphere 1 1 1).getTriangles =
        generateIndices (mkSphere 1 1 1).vertices 1 1 :=
  ⟨Reached.init 1 1 1, triangles_consistent _ (Reached.init 1 1 1)⟩

/-- One unfolding step of the embedded Bresenham loop. -/
theorem drawLineLoop_succ (x2 y2 dx dy sx sy c : ℤ) (fuel : ℕ)
    (x1 y1 err : ℤ) :
    drawLineLoop x2 y2 dx dy sx sy c (fuel + 1) x1 y1 err =
      if x1 = x2 ∧ y1 = y2 then some [((x1, y1), c)]
      else
        match drawLineLoop x2 y2 dx dy sx sy c fuel
            (if 2 * err ≥ dy then x1 + sx else x1)
            (if 2 * err ≤ dx then y1 + sy else y1)
            (if 2 * err ≤ dx
              then (if 2 * err ≥ dy then err + dy else err) + dx
              else (if 2 * err ≥ dy then err + dy else err)) with
        | none => none
        | some rest => some (((x1, y1), c) :: rest) := rfl

/-- Invariant of the Bresenham loop: writing `a` and `b` for the remaining
signed distances `sx·(x2−x1)` and `sy·(y2−y1)`, if `0 ≤ a ≤ dx`,
`0 ≤ b ≤ −dy`, the error accumulator has its closed-form value
`dx·(1−b) − dy·(a−1)`, and the fuel exceeds `a + b`, then the loop reaches
the endpoint: it answers a pixel list starting at `(x1, y1)` and ending at
`(x2, y2)`. -/
theorem drawLineLoop_spec (x2 y2 dx dy sx sy c : ℤ)
    (hdx : 0 ≤ dx) (hdy : dy ≤ 0)
    (hsx : sx = 1 ∨ sx = -1) (hsy : sy = 1 ∨ sy = -1) :
    ∀ (fuel : ℕ) (x1 y1 err : ℤ),
      sx * (x2 - x1) ≤ dx → 0 ≤ sx * (x2 - x1) →
      sy * (y2 - y1) ≤ -dy → 0 ≤ sy * (y2 - y1) →
      err = dx * (1 - sy * (y2 - y1)) + (-dy) * (sx * (x2 - x1) - 1) →
      sx * (x2 - x1) + sy * (y2 - y1) < (fuel : ℤ) →
      ∃ l, drawLineLoop x2 y2 dx dy sx sy c fuel x1 y1 err = some l ∧
        l.head? = some ((x1, y1), c) ∧ l.getLast? = some ((x2, y2), c) := by
  intro fuel
  induction fuel with
  | zero =>
    intro x1 y1 err _ ha0 _ hb0 _ hfuel
    exfalso
    push_cast at hfuel
    omega
  | succ fuel ih =>
    intro x1 y1 err ha1 ha0 hb1 hb0 herr hfuel
    by_cases hend : x1 = x2 ∧ y1 = y2
    · obtain ⟨hx, hy⟩ := hend
      subst hx; subst hy
      exact ⟨[((x1, y1), c)],
        by rw [drawLineLoop_succ, if_pos ⟨rfl, rfl⟩], rfl, rfl⟩
    have hsx2 : sx * sx = 1 := by rcases hsx with h | h <;> rw [h] <;> ring
    have hsy2 : sy * sy = 1 := by rcases hsy with h | h <;> rw [h] <;> ring
    set a := sx * (x2 - x1) with hadef
    set b := sy * (y2 - y1) with hbdef
    have hxa : x1 = x2 ↔ a = 0 := by
      constructor
      · intro h; rw [hadef, h]; ring
      · intro h
        rcases hsx with hs | hs <;> rw [hs] at hadef <;> omega
    have hya : y1 = y2 ↔ b = 0 := by
      constructor
      · intro h; rw [hbdef, h]; ring
      · intro h
        rcases hsy with hs | hs <;> rw [hs] at hbdef <;> omega
    have hab : 0 < a ∨ 0 < b := by
      by_contra hc
      push_neg at hc
      exact hend ⟨hxa.2 (by omega), hya.2 (by omega)⟩
    have hstep_a : sx * (x2 - (x1 + sx)) = a - 1 := by
      have h : sx * (x2 - (x1 + sx)) = sx * (x2 - x1) - sx * sx := by ring
      rw [h, hsx2, ← hadef]
    have hstep_b : sy * (y2 - (y1 + sy)) = b - 1 := by
      have h : sy * (y2 - (y1 + sy)) = sy * (y2 - y1) - sy * sy := by ring
      rw [h, hsy2, ← hbdef]
    have hxstop : a = 0 → ¬ (2 * err ≥ dy) := by
      intro h0
      have hb1' : 1 ≤ b := by
        rcases hab with h | h
        · omega
        · omega
      rw [herr, h0]
      have h1 : dx * (1 - b) ≤ 0 :=
        mul_nonpos_of_nonneg_of_nonpos hdx (by omega)
      nlinarith
    have hystop : b = 0 → ¬ (2 * err ≤ dx) := by
      intro h0
      have ha1' : 1 ≤ a := by
        rcases hab with h | h
        · omega
        · omega
      rw [herr, h0]
      have h1 : 0 ≤ (-dy) * (a - 1) := mul_nonneg (by omega) (by omega)
      nlinarith
    have hfuel' : a + b < (fuel : ℤ) + 1 := by
      push_cast at hfuel
      omega
    rw [drawLineLoop_succ, if_neg hend]
    by_cases hbx : 2 * err ≥ dy <;> by_cases hby : 2 * err ≤ dx
    · -- both branches fire
      have ha' : 1 ≤ a := by
        by_contra hc
        exact hxstop (by omega) hbx
      have hb' : 1 ≤ b := by
        by_contra hc
        exact hystop (by omega) hby
      obtain ⟨l, hl, hhead, hlast⟩ := ih (x1 + sx) (y1 + sy) (err + dy + dx)
        (by rw [hstep_a]; omega) (by rw [hstep_a]; omega)
        (by rw [hstep_b]; omega) (by rw [hstep_b]; omega)
        (by rw [hstep_a, hstep_b, herr]; ring)
        (by rw [hstep_a, hstep_b]; omega)
      refine ⟨((x1, y1), c) :: l, ?_, rfl, ?_⟩
      · simp only [if_pos hbx, if_pos hby, hl]
      · obtain ⟨p, t, rfl⟩ : ∃ p t, l = p :: t := by
          cases l with
          | nil => simp at hhead
          | cons p t => exact ⟨p, t, rfl⟩
        rw [List.getLast?_cons_cons]
        exact hlast
    · -- only the x branch fires
      have ha' : 1 ≤ a := by
        by_contra hc
        exact hxstop (by omega) hbx
      obtain ⟨l, hl, hhead, hlast⟩ := ih (x1 + sx) y1 (err + dy)
        (by rw [hstep_a]; omega) (by rw [hstep_a]; omega)
        (by omega) (by omega)
        (by rw [hstep_a, herr]; ring)
        (by rw [hstep_a]; omega)
      refine ⟨((x1, y1), c) :: l, ?_, rfl, ?_⟩
      · simp only [if_pos hbx, if_neg hby, hl]
      · obtain ⟨p, t, rfl⟩ : ∃ p t, l = p :: t := by
          cases l with
          | nil => simp at hhead
          | cons p t => exact ⟨p, t, rfl⟩
        rw [List.getLast?_cons_cons]
        exact hlast
    · -- only the y branch fires
      have hb' : 1 ≤ b := by
        by_contra hc
        exact hystop (by omega) hby
      obtain ⟨l, hl, hhead, hlast⟩ := ih x1 (y1 + sy) (err + dx)
        (by omega) (by omega)
        (by rw [hstep_b]; omega) (by rw [hstep_b]; omega)
        (by rw [hstep_b, herr]; ring)
        (by rw [hstep_b]; omega)
      refine ⟨((x1, y1), c) :: l, ?_, rfl, ?_⟩
      · simp only [if_neg hbx, if_pos hby, hl]
      · obtain ⟨p, t, rfl⟩ : ∃ p t, l = p :: t := by
          cases l with
          | nil => simp at hhead
          | cons p t => exact ⟨p, t, rfl⟩
        rw [List.getLast?_cons_cons]
        exact hlast
    · exfalso
      omega

/-- C8: for every pair of integer endpoints the Bresenham loop of
`DrawLine` terminates within the provided fuel, the first pixel written is
`(x1, y1)` and the last pixel written is `(x2, y2)`, so both endpoints are
always drawn. -/
theorem DrawLine_total (x1 y1 x2 y2 c : ℤ) :
    ∃ l, DrawLine x1 y1 x2 y2 c = some l ∧
      l.head? = some ((x1, y1), c) ∧ l.getLast? = some ((x2, y2), c) := by
  have ha : (if x1 < x2 then (1 : ℤ) else -1) * (x2 - x1) = |x2 - x1| := by
    rcases abs_cases (x2 - x1) with ⟨h1, h2⟩ | ⟨h1, h2⟩ <;>
      split_ifs with h <;> omega
  have hb : (if y1 < y2 then (1 : ℤ) else -1) * (y2 - y1) = |y2 - y1| := by
    rcases abs_cases (y2 - y1) with ⟨h1, h2⟩ | ⟨h1, h2⟩ <;>
      split_ifs with h <;> omega
  have hA := abs_nonneg (x2 - x1)
  have hB := abs_nonneg (y2 - y1)
  exact drawLineLoop_spec x2 y2 (|x2 - x1|) (-(|y2 - y1|))
    (if x1 < x2 then 1 else -1) (if y1 < y2 then 1 else -1) c
    hA (by omega)
    (by split_ifs <;> simp) (by split_ifs <;> simp)
    ((|x2 - x1| - -(|y2 - y1|) + 1).toNat) x1 y1 (|x2 - x1| + -(|y2 - y1|))
    (by rw [ha]) (by rw [ha]; exact hA)
    (by rw [hb]; omega) (by rw [hb]; exact hB)
    (by rw [ha, hb]; ring)
    (by rw [ha, hb, Int.toNat_of_nonneg (by omega)]; omega)
